import Mathlib

/-!
Verification development for the Simple Inkscape Scripting engine
(`simple_inkscape_scripting.py`).

Shallow embedding conventions:
* Python floats are modelled as rationals (`ℚ`); `int(x)` is truncation
  toward zero and `x % y` is Python's modulo `x - y*⌊x/y⌋` (for `y > 0`).
* Angles are measured in units of π: the Python value `a` radians is
  represented by the rational `a/π`, so `2*pi` becomes `2` and `pi/2`
  becomes `1/2`.  Every arithmetic step of the source on angles is a
  ratio or a linear combination of angles, so it commutes with this
  rescaling.
* Python dicts are insertion-ordered association lists
  (`List (String × α)`); assignment to an existing key keeps its
  position, assignment to a fresh key appends.
* `inkex.utils.errormsg` is modelled as appending the message to an
  error log carried in the state; it never aborts.
* Strings produced by `'%d' % n` / `str(n)` for a nonnegative integer
  use the decimal rendering `natToDec` defined here.
-/

/-- Python `int()` applied to a rational: truncation toward zero. -/
def pyInt (q : ℚ) : ℤ := if 0 ≤ q then ⌊q⌋ else ⌈q⌉

/-- Python `%` on numbers, for use with a positive modulus:
`a % b = a - b * floor (a / b)`. -/
def pyMod (a b : ℚ) : ℚ := a - b * ⌊a / b⌋

/-- Auxiliary decimal digit list, least significant first, with explicit
fuel so the recursion is structural (the fuel `n` always suffices). -/
def decDigitsAux : Nat → Nat → List Nat
  | 0, _ => []
  | _ + 1, 0 => []
  | fuel + 1, n + 1 => ((n + 1) % 10) :: decDigitsAux fuel ((n + 1) / 10)

/-- One decimal digit as a character. -/
def decDigitChar : Nat → Char
  | 0 => '0'
  | 1 => '1'
  | 2 => '2'
  | 3 => '3'
  | 4 => '4'
  | 5 => '5'
  | 6 => '6'
  | 7 => '7'
  | 8 => '8'
  | _ => '9'

/-- Inverse of `decDigitChar` on decimal digit characters. -/
def charToDigit : Char → Nat
  | '0' => 0
  | '1' => 1
  | '2' => 2
  | '3' => 3
  | '4' => 4
  | '5' => 5
  | '6' => 6
  | '7' => 7
  | '8' => 8
  | _ => 9

/-- Value of a least-significant-first decimal digit list. -/
def decVal (l : List Nat) : Nat := l.foldr (fun d acc => d + 10 * acc) 0

/-- Decimal rendering of a natural number: the embedding of Python's
`'%d' % n` and `str(n)` for nonnegative `n`. -/
def natToDec (n : Nat) : String :=
  if n = 0 then "0" else String.mk (((decDigitsAux n n).map decDigitChar).reverse)

/-- Decoding left inverse of `natToDec`. -/
def decOfString (s : String) : Nat := decVal ((s.data.map charToDigit).reverse)

theorem decVal_decDigitsAux : ∀ fuel n, n ≤ fuel → decVal (decDigitsAux fuel n) = n := by
  intro fuel
  induction fuel with
  | zero => intro n h; interval_cases n; rfl
  | succ f ih =>
    intro n h
    match n with
    | 0 => rfl
    | m + 1 =>
      have hdiv : (m + 1) / 10 ≤ f := by
        have : (m + 1) / 10 < m + 1 := Nat.div_lt_self (Nat.succ_pos m) (by decide)
        omega
      simp only [decDigitsAux, decVal, List.foldr]
      have := ih ((m + 1) / 10) hdiv
      simp only [decVal] at this
      rw [this]
      omega

theorem decDigitsAux_lt_ten : ∀ fuel n d, d ∈ decDigitsAux fuel n → d < 10 := by
  intro fuel
  induction fuel with
  | zero => intro n d h; simp [decDigitsAux] at h
  | succ f ih =>
    intro n d h
    match n with
    | 0 => simp [decDigitsAux] at h
    | m + 1 =>
      simp only [decDigitsAux, List.mem_cons] at h
      rcases h with h | h
      · subst h; exact Nat.mod_lt _ (by decide)
      · exact ih _ _ h

theorem charToDigit_decDigitChar {d : Nat} (h : d < 10) : charToDigit (decDigitChar d) = d := by
  interval_cases d <;> rfl

theorem decOfString_natToDec (n : Nat) : decOfString (natToDec n) = n := by
  by_cases h : n = 0
  · subst h; rfl
  · simp only [natToDec, if_neg h, decOfString]
    rw [List.map_reverse, List.reverse_reverse, List.map_map]
    have : (decDigitsAux n n).map (charToDigit ∘ decDigitChar) = (decDigitsAux n n).map id := by
      apply List.map_congr_left
      intro d hd
      exact charToDigit_decDigitChar (decDigitsAux_lt_ten n n d hd)
    rw [this, List.map_id]
    exact decVal_decDigitsAux n n le_rfl

theorem natToDec_injective : Function.Injective natToDec := by
  intro m n h
  have := congrArg decOfString h
  rwa [decOfString_natToDec, decOfString_natToDec] at this

theorem string_append_left_cancel {p a b : String} (h : p ++ a = p ++ b) : a = b := by
  have hd : (p ++ a).data = (p ++ b).data := congrArg String.data h
  rw [String.data_append, String.data_append] at hd
  have hab : a.data = b.data := List.append_cancel_left hd
  cases a; cases b; exact congrArg String.mk hab

/-- Python dict (insertion-ordered mapping from strings). -/
abbrev Dict (α : Type) := List (String × α)

/-- Python dict assignment `m[k] = v`: an existing key keeps its
position (every entry carrying `k` is rewritten), a fresh key is
appended at the end. -/
def dictSet {α : Type} (m : Dict α) (k : String) (v : α) : Dict α :=
  if m.any (fun kv => kv.1 == k) then
    m.map (fun kv => if kv.1 = k then (k, v) else kv)
  else m ++ [(k, v)]

/-- Python `m.update(m2)`: assign each entry of `m2` into `m` in order. -/
def dictUpdate {α : Type} (m m2 : Dict α) : Dict α :=
  m2.foldl (fun acc kv => dictSet acc kv.1 kv.2) m

/-- Keys of a dict are pairwise distinct (true of every Python dict). -/
def NodupKeys {α : Type} (m : Dict α) : Prop := (m.map Prod.fst).Nodup

/-- Python `k.replace('_', '-')` on a key (both arguments are single
characters, so this is a character-wise map). -/
def hyphKey (s : String) : String :=
  String.mk (s.data.map (fun c => if c = '_' then '-' else c))

/-! ## Identity Allocator (`_id_prefix`, `unique_id`) -/

/-- Model of the module-level
`_id_prefix = 'simp-ink-scr-%d-' % randint(100000, 999999)`,
parametrized by the random value `r` drawn once per process. -/
def idPref (r : Nat) : String := "simp-ink-scr-" ++ natToDec r ++ "-"

/-- Model of `unique_id()`: reads `_next_obj_id`, returns the tag
`'%s%d' % (_id_prefix, _next_obj_id)` together with the incremented
counter (the function's side effect). -/
def unique_id (r nextObjId : Nat) : String × Nat :=
  (idPref r ++ natToDec nextObjId, nextObjId + 1)

/-- The ids produced by `k` successive calls of `unique_id` starting
from counter value `n`. -/
def runIds (r : Nat) : Nat → Nat → List String
  | _, 0 => []
  | n, k + 1 => (unique_id r n).1 :: runIds r (unique_id r n).2 k

/-! ## Style Resolver (`SimpleObject._construct_style`) -/

/-- The dict built by `_construct_style` just before serialization:
copy of the shape default style, updated with the global default style,
then updated entry-by-entry with the object style (keys hyphenated,
`None` kept as `None`), and finally stripped of all `None` values.
Values are modelled as `Option String` (`none` = Python `None`); the
plain-string shape defaults are injected via `some`.  Object-style
values are carried already stringified (`str(v)` in the source). -/
def styleDict (shape_style : Dict String) (default_style obj_style : Dict (Option String)) :
    Dict (Option String) :=
  let style := dictUpdate (shape_style.map (fun kv => (kv.1, some kv.2))) default_style
  let style := obj_style.foldl (fun st kv => dictSet st (hyphKey kv.1) kv.2) style
  style.filter (fun kv => kv.2.isSome)

/-- Model of `SimpleObject._construct_style` (the global
`_default_style` is passed explicitly): serializes `styleDict` as
`'%s:%s' % kv` entries joined by `';'`. -/
def construct_style (shape_style : Dict String)
    (default_style obj_style : Dict (Option String)) : String :=
  String.intercalate ";"
    ((styleDict shape_style default_style obj_style).map (fun kv => kv.1 ++ ":" ++ kv.2.getD ""))

/-- Specification-side per-key resolution: per-call value (under the
hyphenated key) beats the process default, which beats the shape
default; a `none` value means the key is deleted. -/
def resolvedValue (shape_style : Dict String) (default_style obj_style : Dict (Option String))
    (k : String) : Option String :=
  match obj_style.find? (fun kv => hyphKey kv.1 == k) with
  | some kv => kv.2
  | none =>
    match default_style.lookup k with
    | some v => v
    | none => shape_style.lookup k

/-! ## Arc Path Synthesizer (`arc`, lines 444-468)

Path segments record the ellipse-parameter angle (in units of π) of
their endpoint instead of the cartesian pair
`(rx*cos(a*π)+cx, ry*sin(a*π)+cy)`, which is a function of that angle;
`rot`/`largeArc`/`sweepFlag` mirror the literal arguments of
`inkex.paths.Arc(rx, ry, 0, False, True, x1, y1)`, and `lineToCenter` /
`close` mirror `inkex.paths.Line(center[0], center[1])` /
`inkex.paths.ZoneClose()`. -/

inductive PathSeg where
  | move (a : ℚ)
  | arcSeg (rot : ℚ) (largeArc sweepFlag : Bool) (a : ℚ)
  | lineToCenter
  | close
deriving DecidableEq

def isArcSeg : PathSeg → Bool
  | PathSeg.arcSeg _ _ _ _ => true
  | _ => false

/-- Number of elliptical-arc segments in a path. -/
def countArcSegs (p : List PathSeg) : Nat := (p.filter isArcSeg).length

/-- Endpoint angles of the elliptical-arc segments of a path, in order. -/
def arcAngles : List PathSeg → List ℚ
  | [] => []
  | PathSeg.arcSeg _ _ _ a :: rest => a :: arcAngles rest
  | _ :: rest => arcAngles rest

/-- Lines 445-452 of `arc`: `ang1 %= 2*pi; ang2 %= 2*pi;
delta_ang = (ang2 - ang1) % (2*pi); if delta_ang == 0.0: delta_ang = 2*pi`
(angles in units of π, so `2*pi` is `2`). -/
def normSweep (ang1 ang2 : ℚ) : ℚ :=
  let a1 := pyMod ang1 2
  let a2 := pyMod ang2 2
  let delta_ang := pyMod (a2 - a1) 2
  if delta_ang = 0 then 2 else delta_ang

/-- Line 453 of `arc`: `n_segs = int((delta_ang + pi/2) / (pi/2))`
(the quotient is a pure number, so the π-rescaling cancels). -/
def nSegsArc (ang1 ang2 : ℚ) : Nat :=
  (pyInt ((normSweep ang1 ang2 + 1 / 2) / (1 / 2))).toNat

/-- Lines 444-468 of `arc`: the path list `p` assigned to `obj.path`,
including the `arc_type`-dependent closing segments.  The final `else`
branch appends nothing (the source only reports an error there, handled
in `arc` below). -/
def arcPath (ang1 ang2 : ℚ) (arc_type : String) : List PathSeg :=
  let a1 := pyMod ang1 2
  let delta_ang := normSweep ang1 ang2
  let n_segs := nSegsArc ang1 ang2
  let p := PathSeg.move a1 ::
    (List.range n_segs).map (fun (s : Nat) =>
      PathSeg.arcSeg 0 false true (a1 + delta_ang * ((s : ℚ) + 1) / (n_segs : ℚ)))
  if arc_type = "arc" then p
  else if arc_type = "slice" then p ++ [PathSeg.lineToCenter, PathSeg.close]
  else if arc_type = "chord" then p ++ [PathSeg.close]
  else p

/-! ## Scene Object Model state (`SimpleObject.__init__` and the
creation-call wrappers) -/

/-- Shape-specific attributes of a created element.  `starShape` covers
both `regular_polygon` (`flat = true`) and `star` (`flat = false`);
its fields mirror the `sodipodi:`/`inkscape:` attributes set by the
source. -/
inductive Payload where
  | polylinePts (pts : String)
  | polygonPts (pts : String)
  | starShape (flat : Bool) (center radii : ℚ × ℚ) (sides : ℤ) (arg1 arg2 round_ random_ : ℚ)
  | arcShape (arcTypeAttr : Option String) (openAttr : Bool) (path : List PathSeg)
deriving DecidableEq

/-- A wrapped drawing element: the unique id assigned by `set_id`, the
optional combined `transform` attribute, the `inkscape:connector-avoid`
mark, the optional combined `style` attribute, and the shape payload. -/
structure Obj where
  tag : String
  transformAttr : Option String
  connAvoid : Bool
  styleAttr : Option String
  payload : Payload
deriving DecidableEq

/-- The process-wide mutable state of the module: the random id-prefix
value, `_next_obj_id`, `_simple_objs`, `_default_style`,
`_default_transform`, and the log of `inkex.utils.errormsg` messages. -/
structure Sis where
  randPref : Nat
  nextObjId : Nat
  simpleObjs : List Obj
  defaultStyle : Dict (Option String)
  defaultTransform : Option String
  errors : List String
deriving DecidableEq

/-- `inkex.utils.errormsg`: report a message without aborting. -/
def errormsg (st : Sis) (msg : String) : Sis :=
  { st with errors := st.errors ++ [msg] }

/-- The module state right after import: `_next_obj_id = 1`,
`_simple_objs = []`, `_default_style = {}`, `_default_transform = None`. -/
def initSt (r : Nat) : Sis := ⟨r, 1, [], [], none, []⟩

/-- `_common_shape_style = {'stroke': 'black', 'fill': 'none'}`. -/
def common_shape_style : Dict String := [("stroke", "black"), ("fill", "none")]

/-- Model of `SimpleObject.__init__`: combine transforms, combine
styles, assign a unique id, and append the object to `_simple_objs`.
Returns the created object and the updated state. -/
def simpleObjectNew (st : Sis) (payload : Payload) (transform : Option String)
    (conn_avoid : Bool) (shape_style : Dict String) (obj_style : Dict (Option String)) :
    Obj × Sis :=
  let ts : List String :=
    (match transform with
     | some t => if t ≠ "" then [t] else []
     | none => []) ++
    (match st.defaultTransform with
     | some t => if t ≠ "" then [t] else []
     | none => [])
  let transformAttr := if ts = [] then none else some (String.intercalate " " ts)
  let ext_style := construct_style shape_style st.defaultStyle obj_style
  let styleAttr := if ext_style = "" then none else some ext_style
  let obj : Obj :=
    ⟨(unique_id st.randPref st.nextObjId).1, transformAttr, conn_avoid, styleAttr, payload⟩
  (obj, { st with nextObjId := (unique_id st.randPref st.nextObjId).2,
                  simpleObjs := st.simpleObjs ++ [obj] })

/-- The `points` attribute string built by `polyline`/`polygon`:
`' '.join(['%s,%s' % (str(x), str(y)) for x, y in coords])`
(coordinates carried already stringified). -/
def ptsAttr (coords : List (String × String)) : String :=
  String.intercalate " " (coords.map (fun xy => xy.1 ++ "," ++ xy.2))

/-- Model of the `polyline` creation call. -/
def polyline (coords : List (String × String)) (transform : Option String)
    (conn_avoid : Bool) (style : Dict (Option String)) (st : Sis) : Option Obj × Sis :=
  if coords.length < 2 then
    (none, errormsg st "A polyline must contain at least two points.")
  else
    let r := simpleObjectNew st (Payload.polylinePts (ptsAttr coords)) transform conn_avoid
      common_shape_style style
    (some r.1, r.2)

/-- Model of the `polygon` creation call. -/
def polygon (coords : List (String × String)) (transform : Option String)
    (conn_avoid : Bool) (style : Dict (Option String)) (st : Sis) : Option Obj × Sis :=
  if coords.length < 3 then
    (none, errormsg st "A polygon must contain at least three points.")
  else
    let r := simpleObjectNew st (Payload.polygonPts (ptsAttr coords)) transform conn_avoid
      common_shape_style style
    (some r.1, r.2)

/-- Model of the `regular_polygon` creation call (angles in units of π:
the default `angle=-pi/2` is `-1/2` and `pi/sides` is `1/sides`). -/
def regular_polygon (sides : ℤ) (center : ℚ × ℚ) (r : ℚ) (angle : ℚ)
    (round_ random_ : ℚ) (transform : Option String) (conn_avoid : Bool)
    (style : Dict (Option String)) (st : Sis) : Option Obj × Sis :=
  if sides < 3 then
    (none, errormsg st "A regular polygon must contain at least three points.")
  else
    let payload := Payload.starShape true center (r, r / 2) sides angle
      (angle + 1 / (sides : ℚ)) round_ random_
    let res := simpleObjectNew st payload transform conn_avoid common_shape_style style
    (some res.1, res.2)

/-- Model of the `star` creation call (angles in units of π). -/
def star (sides : ℤ) (center : ℚ × ℚ) (radii : ℚ × ℚ) (angles : Option (ℚ × ℚ))
    (round_ random_ : ℚ) (transform : Option String) (conn_avoid : Bool)
    (style : Dict (Option String)) (st : Sis) : Option Obj × Sis :=
  if sides < 3 then
    (none, errormsg st "A star must contain at least three points.")
  else
    let angs := match angles with
      | some a => a
      | none =>
        if radii.1 ≥ radii.2 then (-(1 : ℚ) / 2, 1 / (sides : ℚ) - 1 / 2)
        else ((1 : ℚ) / 2, 1 / (sides : ℚ) + 1 / 2)
    let payload := Payload.starShape false center radii sides angs.1 angs.2 round_ random_
    let res := simpleObjectNew st payload transform conn_avoid common_shape_style style
    (some res.1, res.2)

/-- Model of the `arc` creation call: the first enum validation sets
`sodipodi:arc-type` or reports; the path is synthesized by `arcPath`;
the second validation (the trailing `else` of the
`arc`/`slice`/`chord` chain) reports again for an unrecognized type;
the object is then built and registered unconditionally. -/
def arc (ang1 ang2 : ℚ) (arc_type : String) (transform : Option String)
    (conn_avoid : Bool) (style : Dict (Option String)) (st : Sis) : Option Obj × Sis :=
  let arcTypeAttr := if arc_type ∈ ["arc", "slice", "chord"] then some arc_type else none
  let st := if arc_type ∈ ["arc", "slice", "chord"] then st
            else errormsg st ("Invalid arc_type \"" ++ arc_type ++ "\"")
  let p := arcPath ang1 ang2 arc_type
  let openAttr := arc_type == "arc"
  let st := if arc_type = "arc" ∨ arc_type = "slice" ∨ arc_type = "chord" then st
            else errormsg st ("Invalid arc_type \"" ++ arc_type ++ "\"")
  let res := simpleObjectNew st (Payload.arcShape arcTypeAttr openAttr p) transform conn_avoid
    common_shape_style style
  (some res.1, res.2)

/-! ## Group membership (`SimpleGroup.add`)

Objects are tracked by their unique id (ids are process-unique, so an
id is a faithful stand-in for Python object identity); each group's
`_children` list lives in a side table keyed by the group's id. -/

/-- An argument passed to `SimpleGroup.add`: either a `SimpleObject`
(identified by its id) or any other Python value. -/
inductive PyVal where
  | sobj (tag : String)
  | nonObj
deriving DecidableEq

/-- State relevant to group membership: `_simple_objs` (as ids), each
group's `_children` (as ids, keyed by group id), and the error log. -/
structure GroupSt where
  simpleObjs : List String
  children : List (String × List String)
  errors : List String
deriving DecidableEq

/-- The `_children` list of group `g` (a group starts with `[]`). -/
def childrenOf (st : GroupSt) (g : String) : List String :=
  (st.children.lookup g).getD []

/-- `self._children.append(obj)` on group `g` in the side table. -/
def appendChild (assoc : List (String × List String)) (g x : String) :
    List (String × List String) :=
  if assoc.any (fun p => p.1 == g) then
    assoc.map (fun p => if p.1 = g then (p.1, p.2 ++ [x]) else p)
  else assoc ++ [(g, [x])]

/-- Model of `SimpleGroup.add`: reject non-`SimpleObject` values, then
values absent from `_simple_objs`; otherwise remove the object from
`_simple_objs` (the comprehension `[o for o in _simple_objs if o is not
obj]`) and append it to the group's children. -/
def group_add (st : GroupSt) (g : String) (v : PyVal) : GroupSt :=
  match v with
  | PyVal.nonObj =>
      { st with errors := st.errors ++
          ["Only Simple Inkscape Scripting objects can be added to a group"] }
  | PyVal.sobj x =>
      if x ∈ st.simpleObjs then
        { st with simpleObjs := st.simpleObjs.filter (fun o => !(o == x)),
                  children := appendChild st.children g x }
      else
        { st with errors := st.errors ++
            ["Only objects not already in a group can be added to a group"] }

/-- All ownership positions: the top-level registry plus every group's
child list. -/
def allOccs (st : GroupSt) : List String :=
  st.simpleObjs ++ (st.children.map Prod.snd).flatten

/-- Ownership well-formedness, true in every reachable state: no id is
owned twice, and the group side table has one row per group. -/
def GroupInv (st : GroupSt) : Prop :=
  (allOccs st).Nodup ∧ (st.children.map Prod.fst).Nodup

/-! ## Filter primitives (`SimpleFilter.SimpleFilterPrimitive.__init__`) -/

/-- A keyword-argument value passed to a filter primitive.
`primHandle` is a `SimpleFilterPrimitive` (carrying its `result`
attribute and its default `repr` string); `str` a Python string; `seq`
a non-string iterable (elements carried already stringified); `scalar`
any other non-iterable value (carried as its `str()`). -/
inductive FPVal where
  | primHandle (resultId : String) (reprStr : String)
  | str (s : String)
  | seq (elems : List String)
  | scalar (s : String)
deriving DecidableEq

/-- `s2i = {'src1': 'in', 'src2': 'in2'}`. -/
def s2i : Dict String := [("src1", "in"), ("src2", "in2")]

/-- Value stored under a reserved alias: a `SimpleFilterPrimitive` is
replaced by its `result` id; anything else is stored unconverted. -/
def fpAliasVal : FPVal → FPVal
  | FPVal.primHandle rid _ => FPVal.str rid
  | v => v

/-- Value stored under an ordinary key: strings unmodified; non-string
iterables joined with spaces; anything else stringified (iterating a
`SimpleFilterPrimitive` raises `TypeError`, so it falls through to
`str(v)`, its default repr). -/
def fpConvert : FPVal → FPVal
  | FPVal.str s => FPVal.str s
  | FPVal.seq es => FPVal.str (String.intercalate " " es)
  | FPVal.scalar s => FPVal.str s
  | FPVal.primHandle _ r => FPVal.str r

/-- The key under which a keyword argument is stored: hyphenated, and
redirected through `s2i` when it is a reserved alias. -/
def fpTargetKey (k : String) : String :=
  match s2i.lookup (hyphKey k) with
  | some tgt => tgt
  | none => hyphKey k

/-- The value stored for a keyword argument `k = v`. -/
def fpStoredVal (k : String) (v : FPVal) : FPVal :=
  match s2i.lookup (hyphKey k) with
  | some _ => fpAliasVal v
  | none => fpConvert v

/-- The `all_args` dict built by `SimpleFilterPrimitive.__init__`:
starts as `{'result': unique_id()}` and is filled by one dict
assignment per keyword argument. -/
def simpleFilterPrimitiveArgs (resultId : String) (kwArgs : List (String × FPVal)) :
    Dict FPVal :=
  kwArgs.foldl (fun all kv => dictSet all (fpTargetKey kv.1) (fpStoredVal kv.1 kv.2))
    [("result", FPVal.str resultId)]

/-- Model of `SimpleFilterPrimitive.__init__` including the
`unique_id()` call: returns the argument dict, the fresh result id, and
the updated id counter. -/
def simpleFilterPrimitiveNew (r nextObjId : Nat) (kwArgs : List (String × FPVal)) :
    Dict FPVal × String × Nat :=
  let u := unique_id r nextObjId
  (simpleFilterPrimitiveArgs u.1 kwArgs, u.1, u.2)

/-! ## String conversions of the four handle types -/

/-- `SimpleObject.__str__`. -/
def simpleObjectStr (tag : String) : String := "url(#" ++ tag ++ ")"

/-- `SimpleFilter.__str__`. -/
def simpleFilterStr (tag : String) : String := "url(#" ++ tag ++ ")"

/-- `SimpleLinearGradient.__str__`. -/
def simpleLinearGradientStr (tag : String) : String := "url(#" ++ tag ++ ")"

/-- CPython's default `object.__str__`, used for any class that defines
neither `__str__` nor `__repr__`: `'<%s object at %s>' % (qualified
class name, address)`. -/
def pyDefaultObjectStr (className addr : String) : String :=
  "<" ++ className ++ " object at " ++ addr ++ ">"

/-- String conversion of a `SimpleFilterPrimitive` handle: the class
defines no `__str__`, so CPython's default applies. -/
def simpleFilterPrimitiveStr (addr : String) : String :=
  pyDefaultObjectStr "simple_inkscape_scripting.SimpleFilter.SimpleFilterPrimitive" addr

/-! ## Linear gradients (`SimpleLinearGradient.__init__`) -/

/-- A hard Python failure (uncaught exception). -/
inductive PyFatal where
  | nameErr (missing : String)
deriving DecidableEq

/-- `repeat_to_spread = {'none': 'pad', 'reflected': 'reflect',
'direct': 'repeat'}`. -/
def repeat_to_spread : Dict String :=
  [("none", "pad"), ("reflected", "reflect"), ("direct", "repeat")]

/-- Model of `SimpleLinearGradient.__init__`, building the gradient
element's attribute dict.  Stop: line 271 reads the name
`gradientUnits`, which is defined nowhere (the parameter is
`gradient_units`), so reaching that statement raises a `NameError`
that propagates out of the constructor; the element is discarded and
never added to the defs container.  `style_str` is the pre-serialized
`str(inkex.Style(**style))`; `template` is the handle's string form
`url(#<id>)`, stripped with `[5:-1]` as in the source. -/
def simpleLinearGradientNew (pt1 pt2 : Option (String × String)) (rpt : Option String)
    (gradient_units : Option String) (template : Option String)
    (transform : Option String) (style_str : String) : Except PyFatal (Dict String) :=
  let grad : Dict String := []
  let grad := match pt1 with
    | some p => dictSet (dictSet grad "x1" p.1) "y1" p.2
    | none => grad
  let grad := match pt2 with
    | some p => dictSet (dictSet grad "x2" p.1) "y2" p.2
    | none => grad
  let grad := match rpt with
    | some rp => dictSet grad "spreadMethod" ((repeat_to_spread.lookup rp).getD rp)
    | none => grad
  match gradient_units with
  | some _ => Except.error (PyFatal.nameErr "gradientUnits")
  | none =>
    let grad := match template with
      | some t =>
        let tmpl_name := (t.drop 5).dropRight 1
        dictSet (dictSet grad "href" ("#" ++ tmpl_name)) "xlink:href" ("#" ++ tmpl_name)
      | none => grad
    let grad := match transform with
      | some t => dictSet grad "gradientTransform" t
      | none => grad
    let grad := if style_str ≠ "" then dictSet grad "style" style_str else grad
    Except.ok grad

/-- Model of the top-level `linear_gradient` wrapper, which forwards
its arguments to `SimpleLinearGradient.__init__`. -/
def linear_gradient (pt1 pt2 : Option (String × String)) (rpt : Option String)
    (gradient_units : Option String) (template : Option String)
    (transform : Option String) (style_str : String) : Except PyFatal (Dict String) :=
  simpleLinearGradientNew pt1 pt2 rpt gradient_units template transform style_str


theorem lookup_eq_none_of_not_mem_keys {α : Type} {m : Dict α} {k : String}
    (h : k ∉ m.map Prod.fst) : List.lookup k m = none := by
  induction m with
  | nil => rfl
  | cons a t ih =>
    obtain ⟨a1, a2⟩ := a
    simp only [List.map_cons, List.mem_cons, not_or] at h
    simp [List.lookup_cons, beq_false_of_ne h.1, ih h.2]

theorem lookup_map_replace {α : Type} (m : Dict α) (k : String) (v : α) (k' : String)
    (h : k' ≠ k) :
    List.lookup k' (m.map (fun kv => if kv.1 = k then (k, v) else kv)) = List.lookup k' m := by
  induction m with
  | nil => rfl
  | cons a t ih =>
    obtain ⟨a1, a2⟩ := a
    by_cases ha : a1 = k
    · subst ha
      simp [List.lookup_cons, beq_false_of_ne h, ih]
    · by_cases hk : k' = a1
      · subst hk
        simp [List.lookup_cons, ha]
      · simp [List.lookup_cons, ha, beq_false_of_ne hk, ih]

theorem lookup_map_replace_self {α : Type} (m : Dict α) (k : String) (v : α)
    (h : m.any (fun kv => kv.1 == k) = true) :
    List.lookup k (m.map (fun kv => if kv.1 = k then (k, v) else kv)) = some v := by
  induction m with
  | nil => simp at h
  | cons a t ih =>
    obtain ⟨a1, a2⟩ := a
    by_cases ha : a1 = k
    · subst ha
      simp [List.lookup_cons]
    · simp only [List.any_cons] at h
      have hfalse : (a1 == k) = false := beq_false_of_ne ha
      rw [hfalse] at h
      simp only [Bool.false_or] at h
      have hke : k ≠ a1 := fun e => ha e.symm
      simp [List.lookup_cons, ha, beq_false_of_ne hke, ih h]

theorem lookup_append_none {α : Type} {m : Dict α} {k : String} (l : Dict α)
    (h : List.lookup k m = none) : List.lookup k (m ++ l) = List.lookup k l := by
  induction m with
  | nil => rfl
  | cons a t ih =>
    obtain ⟨a1, a2⟩ := a
    rw [List.lookup_cons] at h
    by_cases hk : k = a1
    · subst hk; simp at h
    · rw [beq_false_of_ne hk] at h
      simp only [List.cons_append, List.lookup_cons, beq_false_of_ne hk]
      exact ih h

theorem lookup_append_single_ne {α : Type} (m : Dict α) {k k' : String} (v : α)
    (h : k' ≠ k) : List.lookup k' (m ++ [(k, v)]) = List.lookup k' m := by
  induction m with
  | nil => simp [List.lookup_cons, beq_false_of_ne h, List.lookup]
  | cons a t ih =>
    obtain ⟨a1, a2⟩ := a
    by_cases hk : k' = a1
    · subst hk; simp [List.lookup_cons]
    · simp only [List.cons_append, List.lookup_cons, beq_false_of_ne hk]
      exact ih

theorem any_eq_false_lookup_none {α : Type} {m : Dict α} {k : String}
    (h : m.any (fun kv => kv.1 == k) = false) : List.lookup k m = none := by
  apply lookup_eq_none_of_not_mem_keys
  intro hmem
  rcases List.mem_map.mp hmem with ⟨kv, hkv, hfst⟩
  have : m.any (fun kv => kv.1 == k) = true :=
    List.any_eq_true.mpr ⟨kv, hkv, by simp [hfst]⟩
  rw [h] at this
  exact Bool.false_ne_true this

theorem lookup_dictSet {α : Type} (m : Dict α) (k : String) (v : α) (k' : String) :
    List.lookup k' (dictSet m k v) = if k' = k then some v else List.lookup k' m := by
  unfold dictSet
  by_cases h : m.any (fun kv => kv.1 == k) = true
  · rw [if_pos h]
    by_cases hk : k' = k
    · subst hk; rw [if_pos rfl]; exact lookup_map_replace_self m k' v h
    · rw [if_neg hk]; exact lookup_map_replace m k v k' hk
  · rw [if_neg h]
    by_cases hk : k' = k
    · subst hk
      rw [if_pos rfl, lookup_append_none _ (any_eq_false_lookup_none (Bool.eq_false_iff.mpr h))]
      simp [List.lookup_cons]
    · rw [if_neg hk]
      exact lookup_append_single_ne m v hk

theorem keys_dictSet_of_any {α : Type} (m : Dict α) (k : String) (v : α)
    (h : m.any (fun kv => kv.1 == k) = true) :
    (dictSet m k v).map Prod.fst = m.map Prod.fst := by
  unfold dictSet
  rw [if_pos h, List.map_map]
  apply List.map_congr_left
  intro kv _
  by_cases hk : kv.1 = k <;> simp [hk]

theorem nodupKeys_dictSet {α : Type} {m : Dict α} (k : String) (v : α)
    (h : NodupKeys m) : NodupKeys (dictSet m k v) := by
  by_cases hany : m.any (fun kv => kv.1 == k) = true
  · unfold NodupKeys
    rw [keys_dictSet_of_any m k v hany]
    exact h
  · unfold NodupKeys dictSet
    rw [if_neg hany]
    have hk : k ∉ m.map Prod.fst := by
      intro hmem
      rcases List.mem_map.mp hmem with ⟨kv, hkv, hfst⟩
      exact hany (List.any_eq_true.mpr ⟨kv, hkv, by simp [hfst]⟩)
    simp only [List.map_append, List.map_cons, List.map_nil]
    rw [List.nodup_append]
    refine ⟨h, List.nodup_singleton k, ?_⟩
    intro a ha hb
    rw [List.mem_singleton] at hb
    exact hk (hb ▸ ha)

theorem lookup_foldl_dictSet {α σ : Type} (key : σ → String) (val : σ → α) :
    ∀ (l : List σ) (acc : Dict α) (k : String), (l.map key).Nodup →
      List.lookup k (l.foldl (fun st x => dictSet st (key x) (val x)) acc) =
        (match l.find? (fun x => key x == k) with
         | some x => some (val x)
         | none => List.lookup k acc) := by
  intro l
  induction l with
  | nil => intro acc k _; rfl
  | cons x t ih =>
    intro acc k hnd
    simp only [List.map_cons, List.nodup_cons, List.mem_map] at hnd
    obtain ⟨hx, ht⟩ := hnd
    simp only [List.foldl_cons, List.find?_cons]
    by_cases hk : key x = k
    · rw [beq_iff_eq.mpr hk]
      have hnone : t.find? (fun y => key y == k) = none := by
        apply List.find?_eq_none.mpr
        intro y hy
        simp only [beq_iff_eq]
        intro he
        exact hx ⟨y, hy, by rw [he, hk]⟩
      rw [ih _ k ht, hnone, lookup_dictSet, if_pos hk.symm]
    · rw [beq_false_of_ne hk]
      rw [ih _ k ht]
      cases hfind : t.find? (fun y => key y == k) with
      | some y => rfl
      | none => rw [lookup_dictSet, if_neg (fun e => hk e.symm)]

theorem nodupKeys_foldl_dictSet {α σ : Type} (key : σ → String) (val : σ → α) :
    ∀ (l : List σ) (acc : Dict α), NodupKeys acc →
      NodupKeys (l.foldl (fun st x => dictSet st (key x) (val x)) acc) := by
  intro l
  induction l with
  | nil => intro acc h; exact h
  | cons x t ih =>
    intro acc h
    exact ih _ (nodupKeys_dictSet _ _ h)

theorem nodupKeys_dictUpdate {α : Type} {m m2 : Dict α} (h : NodupKeys m) :
    NodupKeys (dictUpdate m m2) := by
  unfold dictUpdate
  exact nodupKeys_foldl_dictSet Prod.fst Prod.snd m2 m h

theorem lookup_filter_isSome {α : Type} (p : α → Bool) :
    ∀ (m : Dict α) (k : String), NodupKeys m →
      List.lookup k (m.filter (fun kv => p kv.2)) =
        (List.lookup k m).bind (fun v => if p v then some v else none) := by
  intro m
  induction m with
  | nil => intro k _; rfl
  | cons a t ih =>
    intro k hnd
    obtain ⟨a1, a2⟩ := a
    unfold NodupKeys at hnd
    simp only [List.map_cons, List.nodup_cons] at hnd
    obtain ⟨hmem, ht⟩ := hnd
    by_cases hk : k = a1
    · subst hk
      by_cases hp : p a2 = true
      · simp [List.filter_cons, hp, List.lookup_cons]
      · have hp' : p a2 = false := Bool.eq_false_iff.mpr hp
        have hfil : List.filter (fun kv => p kv.2) ((k, a2) :: t)
            = List.filter (fun kv => p kv.2) t := by
          simp [List.filter_cons, hp']
        have hnone : List.lookup k (List.filter (fun kv => p kv.2) t) = none := by
          apply lookup_eq_none_of_not_mem_keys
          intro hmem2
          apply hmem
          rcases List.mem_map.mp hmem2 with ⟨kv, hkv, hfst⟩
          exact List.mem_map.mpr ⟨kv, List.mem_of_mem_filter hkv, hfst⟩
        rw [hfil, hnone, List.lookup_cons, beq_self_eq_true]
        simp [hp']
    · by_cases hp : p a2 = true
      · simp only [List.filter_cons, hp, if_pos, List.lookup_cons, beq_false_of_ne hk]
        exact ih k ht
      · have hp' : p a2 = false := Bool.eq_false_iff.mpr hp
        simp only [List.filter_cons, hp', List.lookup_cons, beq_false_of_ne hk]
        exact ih k ht

theorem lookup_map_val {α β : Type} (f : α → β) :
    ∀ (m : Dict α) (k : String),
      List.lookup k (m.map (fun kv => (kv.1, f kv.2))) = (List.lookup k m).map f := by
  intro m
  induction m with
  | nil => intro k; rfl
  | cons a t ih =>
    intro k
    obtain ⟨a1, a2⟩ := a
    by_cases hk : k = a1
    · subst hk; simp [List.lookup_cons]
    · simp [List.lookup_cons, beq_false_of_ne hk, ih]

theorem lookup_eq_find? {α : Type} :
    ∀ (m : Dict α) (k : String),
      List.lookup k m = (m.find? (fun kv => kv.1 == k)).map Prod.snd := by
  intro m
  induction m with
  | nil => intro k; rfl
  | cons a t ih =>
    intro k
    obtain ⟨a1, a2⟩ := a
    by_cases hk : k = a1
    · subst hk; simp [List.lookup_cons, List.find?_cons]
    · have h1 : (k == a1) = false := beq_false_of_ne hk
      have h2 : (a1 == k) = false := beq_false_of_ne (fun e => hk e.symm)
      simp only [List.lookup_cons, h1, List.find?_cons, h2]
      exact ih k

theorem find?_eq_some_of_mem {α : Type} (key : α → String) :
    ∀ (l : List α) (x : α), (l.map key).Nodup → x ∈ l →
      l.find? (fun y => key y == key x) = some x := by
  intro l
  induction l with
  | nil => intro x _ hx; simp at hx
  | cons a t ih =>
    intro x hnd hx
    simp only [List.map_cons, List.nodup_cons, List.mem_map] at hnd
    obtain ⟨ha, ht⟩ := hnd
    rcases List.mem_cons.mp hx with rfl | hx
    · simp [List.find?_cons]
    · have hne : key a ≠ key x := fun e => ha ⟨x, hx, e.symm⟩
      simp only [List.find?_cons, beq_false_of_ne hne]
      exact ih x ht hx

theorem pyMod_nonneg (a : ℚ) {b : ℚ} (hb : 0 < b) : 0 ≤ pyMod a b := by
  unfold pyMod
  have h1 : (⌊a / b⌋ : ℚ) ≤ a / b := Int.floor_le _
  have h2 : b * (⌊a / b⌋ : ℚ) ≤ b * (a / b) := by
    exact mul_le_mul_of_nonneg_left h1 (le_of_lt hb)
  have h3 : b * (a / b) = a := by field_simp
  linarith

theorem pyMod_lt (a : ℚ) {b : ℚ} (hb : 0 < b) : pyMod a b < b := by
  unfold pyMod
  have h1 : (a / b - 1 : ℚ) < ⌊a / b⌋ := Int.sub_one_lt_floor _
  have h2 : b * (a / b - 1) < b * (⌊a / b⌋ : ℚ) := by
    exact (mul_lt_mul_left hb).mpr h1
  have h3 : b * (a / b - 1) = a - b := by field_simp
  linarith

theorem normSweep_pos (ang1 ang2 : ℚ) : 0 < normSweep ang1 ang2 := by
  unfold normSweep
  by_cases h : pyMod (pyMod ang2 2 - pyMod ang1 2) 2 = 0
  · simp [h]
  · simp only [h, if_false]
    exact lt_of_le_of_ne (pyMod_nonneg _ (by norm_num)) (fun e => h e.symm)

theorem normSweep_le_two (ang1 ang2 : ℚ) : normSweep ang1 ang2 ≤ 2 := by
  unfold normSweep
  by_cases h : pyMod (pyMod ang2 2 - pyMod ang1 2) 2 = 0
  · simp [h]
  · simp only [h, if_false]
    exact le_of_lt (pyMod_lt _ (by norm_num))

theorem nSegsArc_eq (ang1 ang2 : ℚ) :
    nSegsArc ang1 ang2 = (⌊normSweep ang1 ang2 / (1 / 2)⌋ + 1).toNat := by
  have hpos : 0 < normSweep ang1 ang2 := normSweep_pos ang1 ang2
  unfold nSegsArc pyInt
  have harg : (normSweep ang1 ang2 + 1 / 2) / (1 / 2 : ℚ)
      = normSweep ang1 ang2 / (1 / 2) + 1 := by ring
  have hnn : (0 : ℚ) ≤ (normSweep ang1 ang2 + 1 / 2) / (1 / 2) := by positivity
  rw [if_pos hnn, harg, Int.floor_add_one]

theorem one_le_nSegsArc (ang1 ang2 : ℚ) : 1 ≤ nSegsArc ang1 ang2 := by
  rw [nSegsArc_eq]
  have hpos : 0 < normSweep ang1 ang2 := normSweep_pos ang1 ang2
  have h0 : (0 : ℤ) ≤ ⌊normSweep ang1 ang2 / (1 / 2)⌋ := by
    apply Int.floor_nonneg.mpr
    positivity
  omega

theorem countArcSegs_append (p q : List PathSeg) :
    countArcSegs (p ++ q) = countArcSegs p + countArcSegs q := by
  simp [countArcSegs, List.filter_append]

theorem countArcSegs_arcMap (rot : ℚ) (la sf : Bool) (f : Nat → ℚ) (l : List Nat) :
    countArcSegs (l.map (fun s => PathSeg.arcSeg rot la sf (f s))) = l.length := by
  induction l with
  | nil => rfl
  | cons a t ih => simpa [countArcSegs, List.filter_cons, isArcSeg] using ih

theorem countArcSegs_arcPath (ang1 ang2 : ℚ) (arc_type : String) :
    countArcSegs (arcPath ang1 ang2 arc_type) = nSegsArc ang1 ang2 := by
  unfold arcPath
  have hbase : countArcSegs (PathSeg.move (pyMod ang1 2) ::
      (List.range (nSegsArc ang1 ang2)).map (fun (s : Nat) =>
        PathSeg.arcSeg 0 false true
          (pyMod ang1 2 + normSweep ang1 ang2 * ((s : ℚ) + 1) / (nSegsArc ang1 ang2 : ℚ)))) =
      nSegsArc ang1 ang2 := by
    have := countArcSegs_arcMap 0 false true
      (fun s => pyMod ang1 2 + normSweep ang1 ang2 * ((s : ℚ) + 1) / (nSegsArc ang1 ang2 : ℚ))
      (List.range (nSegsArc ang1 ang2))
    simp only [countArcSegs, List.filter_cons, isArcSeg] at this ⊢
    simpa using this
  split_ifs with h1 h2 h3
  · exact hbase
  · rw [countArcSegs_append, hbase]; rfl
  · rw [countArcSegs_append, hbase]; rfl
  · exact hbase

theorem unique_id_fst (r n : Nat) : (unique_id r n).1 = idPref r ++ natToDec n := rfl

theorem unique_id_inj (r : Nat) {m n : Nat}
    (h : (unique_id r m).1 = (unique_id r n).1) : m = n := by
  rw [unique_id_fst, unique_id_fst] at h
  exact natToDec_injective (string_append_left_cancel h)

theorem runIds_eq (r : Nat) :
    ∀ (k n : Nat), runIds r n k = (List.range k).map (fun i => (unique_id r (n + i)).1) := by
  intro k
  induction k with
  | zero => intro n; rfl
  | succ k ih =>
    intro n
    show (unique_id r n).1 :: runIds r (n + 1) k = _
    rw [ih (n + 1), List.range_succ_eq_map, List.map_cons, List.map_map]
    refine congrArg₂ List.cons (by simp) ?_
    apply List.map_congr_left
    intro i _
    show (unique_id r (n + 1 + i)).1 = (unique_id r (n + (i + 1))).1
    have harith : n + 1 + i = n + (i + 1) := by omega
    rw [harith]

theorem runIds_nodup (r N : Nat) : (runIds r 1 N).Nodup := by
  rw [runIds_eq]
  apply List.Nodup.map
  · intro i j hij
    have := unique_id_inj r hij
    omega
  · exact List.nodup_range N

theorem lookup_mem_snd {α : Type} :
    ∀ (m : List (String × α)) (k : String) (v : α),
      List.lookup k m = some v → v ∈ m.map Prod.snd := by
  intro m
  induction m with
  | nil => intro k v h; simp [List.lookup] at h
  | cons a t ih =>
    intro k v h
    obtain ⟨a1, a2⟩ := a
    rw [List.lookup_cons] at h
    by_cases hk : k = a1
    · rw [beq_iff_eq.mpr hk] at h
      simp only [Option.some.injEq] at h
      simp [h]
    · rw [beq_false_of_ne hk] at h
      simp [ih k v h]

theorem count_le_count_flatten :
    ∀ (L : List (List String)) (cs : List String) (x : String),
      cs ∈ L → cs.count x ≤ L.flatten.count x := by
  intro L
  induction L with
  | nil => intro cs x h; simp at h
  | cons h t ih =>
    intro cs x hmem
    rw [List.flatten_cons, List.count_append]
    rcases List.mem_cons.mp hmem with rfl | hmem
    · exact Nat.le_add_right _ _
    · exact le_trans (ih cs x hmem) (Nat.le_add_left _ _)

theorem map_replace_child_id (assoc : List (String × List String)) (g x : String)
    (h : ∀ p ∈ assoc, p.1 ≠ g) :
    assoc.map (fun p => if p.1 = g then (p.1, p.2 ++ [x]) else p) = assoc := by
  have : assoc.map (fun p => if p.1 = g then (p.1, p.2 ++ [x]) else p) = assoc.map id := by
    apply List.map_congr_left
    intro p hp
    simp [h p hp]
  rw [this, List.map_id]

theorem lookup_appendChild_self (assoc : List (String × List String)) (g x : String) :
    List.lookup g (appendChild assoc g x) = some (((List.lookup g assoc).getD []) ++ [x]) := by
  unfold appendChild
  by_cases hany : assoc.any (fun p => p.1 == g) = true
  · rw [if_pos hany]
    induction assoc with
    | nil => simp at hany
    | cons a t ih =>
      obtain ⟨a1, a2⟩ := a
      by_cases ha : a1 = g
      · subst ha
        simp [List.lookup_cons]
      · have hfalse : (a1 == g) = false := beq_false_of_ne ha
        simp only [List.any_cons, hfalse, Bool.false_or] at hany
        have hge : g ≠ a1 := fun e => ha e.symm
        simp only [List.map_cons, if_neg ha, List.lookup_cons, beq_false_of_ne hge]
        exact ih hany
  · rw [if_neg hany]
    have hnone : List.lookup g assoc = none := by
      apply lookup_eq_none_of_not_mem_keys
      intro hmem
      rcases List.mem_map.mp hmem with ⟨p, hp, hfst⟩
      exact hany (List.any_eq_true.mpr ⟨p, hp, by simp [hfst]⟩)
    rw [lookup_append_none _ hnone, hnone]
    simp [List.lookup_cons]

theorem lookup_map_childReplace (t : List (String × List String)) (g x : String)
    {g' : String} (h : g' ≠ g) :
    List.lookup g' (t.map (fun p => if p.1 = g then (p.1, p.2 ++ [x]) else p))
      = List.lookup g' t := by
  induction t with
  | nil => rfl
  | cons a t ih =>
    obtain ⟨a1, a2⟩ := a
    by_cases ha : a1 = g
    · subst ha
      simp only [List.map_cons, if_pos rfl, List.lookup_cons, beq_false_of_ne h, if_true,
        eq_self_iff_true]
      exact ih
    · by_cases hg : g' = a1
      · subst hg
        simp [List.lookup_cons, if_neg ha]
      · simp only [List.map_cons, if_neg ha, List.lookup_cons, beq_false_of_ne hg]
        exact ih

theorem lookup_appendChild_ne (assoc : List (String × List String)) {g g' : String}
    (x : String) (h : g' ≠ g) :
    List.lookup g' (appendChild assoc g x) = List.lookup g' assoc := by
  unfold appendChild
  by_cases hany : assoc.any (fun p => p.1 == g) = true
  · rw [if_pos hany]
    exact lookup_map_childReplace assoc g x h
  · rw [if_neg hany]
    exact lookup_append_single_ne assoc [x] h

theorem keys_appendChild (assoc : List (String × List String)) (g x : String)
    (hany : assoc.any (fun p => p.1 == g) = true) :
    (appendChild assoc g x).map Prod.fst = assoc.map Prod.fst := by
  unfold appendChild
  rw [if_pos hany, List.map_map]
  apply List.map_congr_left
  intro p _
  by_cases hp : p.1 = g <;> simp [hp]

theorem count_single_eq (y x : String) : List.count y [x] = if y = x then 1 else 0 := by
  by_cases hy : y = x
  · simp [hy]
  · simp [List.count_cons, beq_false_of_ne hy, hy]

theorem count_filter_bne (x : String) :
    ∀ (l : List String) (y : String),
      (l.filter (fun o => !(o == x))).count y = if y = x then 0 else l.count y := by
  intro l
  induction l with
  | nil => intro y; simp
  | cons a t ih =>
    intro y
    by_cases ha : a = x
    · subst ha
      have hfil : (a :: t).filter (fun o => !(o == a)) = t.filter (fun o => !(o == a)) := by
        simp [List.filter_cons]
      rw [hfil, ih y]
      by_cases hy : y = a
      · simp [hy]
      · simp [hy, List.count_cons, beq_false_of_ne hy]
    · have hfil : (a :: t).filter (fun o => !(o == x)) = a :: t.filter (fun o => !(o == x)) := by
        simp [List.filter_cons, beq_false_of_ne ha]
      rw [hfil, List.count_cons, List.count_cons, ih y]
      by_cases hy : y = x
      · have hya : (y == a) = false := beq_false_of_ne (fun e => ha (e.symm.trans hy))
        simp [hy, hya]
        exact ha
      · simp [hy]

theorem count_flatten_appendChild (g x : String) :
    ∀ (assoc : List (String × List String)) (y : String),
      (assoc.map Prod.fst).Nodup →
      ((appendChild assoc g x).map Prod.snd).flatten.count y
        = ((assoc.map Prod.snd).flatten).count y + (if y = x then 1 else 0) := by
  intro assoc
  induction assoc with
  | nil =>
    intro y _
    show ((appendChild [] g x).map Prod.snd).flatten.count y = _
    simp [appendChild, count_single_eq]
  | cons a t ih =>
    intro y hnd
    obtain ⟨a1, a2⟩ := a
    simp only [List.map_cons, List.nodup_cons] at hnd
    obtain ⟨hmem, ht⟩ := hnd
    unfold appendChild
    by_cases ha : a1 = g
    · subst ha
      simp only [List.any_cons, beq_self_eq_true, Bool.true_or, if_true, List.map_cons,
        eq_self_iff_true]
      have htid : t.map (fun p => if p.1 = a1 then (p.1, p.2 ++ [x]) else p) = t := by
        apply map_replace_child_id
        intro p hp he
        exact hmem (List.mem_map.mpr ⟨p, hp, he⟩)
      rw [htid]
      simp only [List.flatten_cons, List.count_append, count_single_eq]
      omega
    · have hfalse : (a1 == g) = false := beq_false_of_ne ha
      by_cases hany : t.any (fun p => p.1 == g) = true
      · have hanyc : (((a1, a2) :: t).any fun p => p.1 == g) = true := by
          simp [List.any_cons, hany]
        rw [if_pos hanyc]
        simp only [List.map_cons, if_neg ha, List.flatten_cons, List.count_append]
        have hih := ih y ht
        unfold appendChild at hih
        rw [if_pos hany] at hih
        rw [hih]
        omega
      · have hanyc : (((a1, a2) :: t).any fun p => p.1 == g) = false := by
          simp only [List.any_cons, hfalse, Bool.false_or]
          exact Bool.eq_false_iff.mpr hany
        rw [hanyc]
        show (((a1, a2) :: t ++ [(g, [x])]).map Prod.snd).flatten.count y = _
        simp only [List.cons_append, List.map_cons, List.map_append, List.map_nil,
          List.flatten_cons, List.flatten_append, List.flatten_nil, List.append_nil,
          List.count_append, count_single_eq]
        omega

theorem count_allOccs (st : GroupSt) (y : String) :
    (allOccs st).count y
      = st.simpleObjs.count y + ((st.children.map Prod.snd).flatten).count y := by
  simp [allOccs, List.count_append]

theorem childrenOf_count_zero {st : GroupSt} (h : GroupInv st) {x : String}
    (hx : x ∈ st.simpleObjs) (g : String) : (childrenOf st g).count x = 0 := by
  have htot : (allOccs st).count x ≤ 1 := List.nodup_iff_count_le_one.mp h.1 x
  rw [count_allOccs] at htot
  have hreg : 0 < st.simpleObjs.count x := List.count_pos_iff.mpr hx
  have hflat : ((st.children.map Prod.snd).flatten).count x = 0 := by omega
  unfold childrenOf
  cases hlk : List.lookup g st.children with
  | none => simp
  | some cs =>
    have hmem := lookup_mem_snd st.children g cs hlk
    have hle := count_le_count_flatten (st.children.map Prod.snd) cs x hmem
    simp only [Option.getD_some]
    omega

theorem nodupKeys_appendChild (assoc : List (String × List String)) (g x : String)
    (h : (assoc.map Prod.fst).Nodup) : ((appendChild assoc g x).map Prod.fst).Nodup := by
  by_cases hany : assoc.any (fun p => p.1 == g) = true
  · rw [keys_appendChild assoc g x hany]
    exact h
  · unfold appendChild
    rw [if_neg hany]
    have hk : g ∉ assoc.map Prod.fst := by
      intro hmem
      rcases List.mem_map.mp hmem with ⟨p, hp, hfst⟩
      exact hany (List.any_eq_true.mpr ⟨p, hp, by simp [hfst]⟩)
    simp only [List.map_append, List.map_cons, List.map_nil]
    rw [List.nodup_append]
    refine ⟨h, List.nodup_singleton g, ?_⟩
    intro a ha hb
    rw [List.mem_singleton] at hb
    exact hk (hb ▸ ha)

theorem groupInv_group_add {st : GroupSt} (g : String) (v : PyVal) (h : GroupInv st) :
    GroupInv (group_add st g v) := by
  cases v with
  | nonObj =>
    exact ⟨h.1, h.2⟩
  | sobj x =>
    show GroupInv (if x ∈ st.simpleObjs then
        { st with simpleObjs := st.simpleObjs.filter (fun o => !(o == x)),
                  children := appendChild st.children g x }
      else
        { st with errors := st.errors ++
            ["Only objects not already in a group can be added to a group"] })
    by_cases hx : x ∈ st.simpleObjs
    · rw [if_pos hx]
      constructor
      · rw [List.nodup_iff_count_le_one]
        intro y
        have hcnt : (allOccs st).count y ≤ 1 := List.nodup_iff_count_le_one.mp h.1 y
        rw [count_allOccs] at hcnt
        have hreg : 0 < st.simpleObjs.count x := List.count_pos_iff.mpr hx
        show (List.count y (st.simpleObjs.filter (fun o => !(o == x)) ++
          ((appendChild st.children g x).map Prod.snd).flatten)) ≤ 1
        rw [List.count_append, count_filter_bne, count_flatten_appendChild g x st.children y h.2]
        have hcx : (allOccs st).count x ≤ 1 := List.nodup_iff_count_le_one.mp h.1 x
        rw [count_allOccs] at hcx
        by_cases hy : y = x <;> simp [hy] <;> omega
      · exact nodupKeys_appendChild st.children g x h.2
    · rw [if_neg hx]
      exact ⟨h.1, h.2⟩

theorem groupInv_register {st : GroupSt} (x : String) (h : GroupInv st)
    (hx : x ∉ allOccs st) :
    GroupInv { st with simpleObjs := st.simpleObjs ++ [x] } := by
  constructor
  · rw [List.nodup_iff_count_le_one]
    intro y
    have hcnt : (allOccs st).count y ≤ 1 := List.nodup_iff_count_le_one.mp h.1 y
    rw [count_allOccs] at hcnt
    show (List.count y ((st.simpleObjs ++ [x]) ++
      ((st.children.map Prod.snd).flatten))) ≤ 1
    rw [List.count_append, List.count_append, count_single_eq]
    by_cases hy : y = x
    · subst hy
      have h0 : (allOccs st).count y = 0 := List.count_eq_zero.mpr hx
      rw [count_allOccs] at h0
      rw [if_pos rfl]
      omega
    · rw [if_neg hy]
      omega
  · exact h.2

/-- C5: for every N sequential creation calls within one run, the N
assigned ids are pairwise distinct, each has the form
`<run-prefix>-<counter>` with the counter starting at 1 (the run prefix
being `simp-ink-scr-<r>`), and the numeric suffixes strictly increase
in call order. -/
theorem C5_id_uniqueness (r N : Nat) :
    runIds r 1 N
      = (List.range N).map
          (fun i => ("simp-ink-scr-" ++ natToDec r) ++ "-" ++ natToDec (i + 1))
    ∧ List.Pairwise (fun a b => a ≠ b) (runIds r 1 N) := by
  constructor
  · rw [runIds_eq]
    apply List.map_congr_left
    intro i _
    show (unique_id r (1 + i)).1 = _
    rw [unique_id_fst]
    have harith : 1 + i = i + 1 := by omega
    rw [harith]
    rfl
  · exact runIds_nodup r N

/-- C3: the style resolver merges shape defaults, process defaults and
the per-call style with precedence per-call > process default > shape
default, hyphenates per-call keys, deletes keys whose overlay value is
None, and serializes the survivors as `key:value` pairs joined by `;`
in insertion order; in particular
`resolve({a:1,b:2}, {b:3,c:4}, {c:None,d:5})` serializes to
`a:1;b:3;d:5`. -/
theorem C3_style_resolution :
    (∀ (shape_style : Dict String) (default_style obj_style : Dict (Option String)),
      NodupKeys shape_style → NodupKeys default_style →
      (obj_style.map (fun kv => hyphKey kv.1)).Nodup →
      ∀ k, List.lookup k (styleDict shape_style default_style obj_style)
            = (resolvedValue shape_style default_style obj_style k).map some)
    ∧ construct_style [("a", "1"), ("b", "2")]
        [("b", some "3"), ("c", some "4")]
        [("c", none), ("d", some "5")] = "a:1;b:3;d:5" := by
  constructor
  · intro shape_style default_style obj_style hsh hdef hobj k
    have hbasekeys : NodupKeys (shape_style.map (fun kv => (kv.1, some kv.2))) := by
      unfold NodupKeys at hsh ⊢
      rw [List.map_map]
      exact hsh
    have hupd : NodupKeys (dictUpdate (shape_style.map (fun kv => (kv.1, some kv.2)))
        default_style) := nodupKeys_dictUpdate hbasekeys
    have hpre : NodupKeys (obj_style.foldl (fun st kv => dictSet st (hyphKey kv.1) kv.2)
        (dictUpdate (shape_style.map (fun kv => (kv.1, some kv.2))) default_style)) :=
      nodupKeys_foldl_dictSet (fun kv => hyphKey kv.1) (fun kv => kv.2) obj_style _ hupd
    unfold styleDict
    rw [lookup_filter_isSome _ _ k hpre]
    rw [lookup_foldl_dictSet (fun kv => hyphKey kv.1) (fun kv => kv.2) obj_style _ k hobj]
    unfold resolvedValue
    cases hfind : obj_style.find? (fun kv => hyphKey kv.1 == k) with
    | some kv =>
      cases hv : kv.2 with
      | some v => simp [hv]
      | none => simp [hv]
    | none =>
      show (List.lookup k (dictUpdate (shape_style.map (fun kv => (kv.1, some kv.2)))
          default_style)).bind (fun v => if v.isSome then some v else none) = _
      unfold dictUpdate
      rw [lookup_foldl_dictSet Prod.fst Prod.snd default_style _ k hdef]
      rw [lookup_eq_find? default_style k]
      cases hfd : default_style.find? (fun kv => kv.1 == k) with
      | some kv =>
        cases hv : kv.2 with
        | some v => simp [hv]
        | none => simp [hv]
      | none =>
        rw [lookup_map_val some shape_style k]
        cases hsp : List.lookup k shape_style with
        | some v => simp
        | none => simp
  · decide

/-- Witness for C3: the general per-key precedence theorem applied to
the spec's concrete maps at key "c" (deleted) with all hypotheses
discharged by computation. -/
theorem C3_style_resolution_witness :
    NodupKeys [("a", "1"), ("b", "2")]
    ∧ NodupKeys [("b", some "3"), ("c", some "4")]
    ∧ (([("c", (none : Option String)), ("d", some "5")]).map
        (fun kv => hyphKey kv.1)).Nodup
    ∧ List.lookup "c" (styleDict [("a", "1"), ("b", "2")]
        [("b", some "3"), ("c", some "4")] [("c", none), ("d", some "5")])
      = (resolvedValue [("a", "1"), ("b", "2")]
          [("b", some "3"), ("c", some "4")] [("c", none), ("d", some "5")] "c").map some :=
  ⟨by unfold NodupKeys; decide, by unfold NodupKeys; decide, by decide,
    C3_style_resolution.1 [("a", "1"), ("b", "2")]
      [("b", some "3"), ("c", some "4")] [("c", none), ("d", some "5")]
      (by unfold NodupKeys; decide) (by unfold NodupKeys; decide) (by decide) "c"⟩

/-- C7 counterexample: a FilterPrimitive handle does not stringify as
`url(#<id>)` — the class defines no string conversion, so CPython's
default representation applies; at the concrete primitive with result
id `simp-ink-scr-123456-1`, the conversion differs from
`url(#simp-ink-scr-123456-1)`. -/
theorem C7_counterexample :
    simpleFilterPrimitiveStr "0x7f5d00" ≠ "url(#simp-ink-scr-123456-1)" := by
  decide

/-- C7 (amended): SceneObject, FilterEffect and LinearGradient handles
convert to exactly `url(#<id>)`; a FilterPrimitive handle defines no
string conversion and yields Python's default object representation,
which is never of the form `url(#<id>)`. -/
theorem C7_handle_strings (tag addr oid : String) :
    simpleObjectStr tag = "url(#" ++ tag ++ ")"
    ∧ simpleFilterStr tag = "url(#" ++ tag ++ ")"
    ∧ simpleLinearGradientStr tag = "url(#" ++ tag ++ ")"
    ∧ simpleFilterPrimitiveStr addr ≠ "url(#" ++ oid ++ ")" := by
  refine ⟨rfl, rfl, rfl, ?_⟩
  intro h
  unfold simpleFilterPrimitiveStr pyDefaultObjectStr at h
  have hd := congrArg String.data h
  simp only [String.data_append] at hd
  simp at hd

/-- C10: calling `linear_gradient` with a non-None `gradient_units`
raises a hard failure — a NameError on the undefined name
`gradientUnits` — instead of setting the `gradientUnits` attribute. -/
theorem C10_gradient_units_name_error (pt1 pt2 : Option (String × String))
    (rpt : Option String) (u : String) (template transform : Option String)
    (style_str : String) :
    linear_gradient pt1 pt2 rpt (some u) template transform style_str
      = Except.error (PyFatal.nameErr "gradientUnits") := rfl

/-- C9: every creation call with malformed shape parameters (a polyline
with fewer than 2 points, a polygon with fewer than 3 points, a regular
polygon or star with fewer than 3 sides) reports an error, returns no
object, and leaves the top-level registry unchanged. -/
theorem C9_invalid_shapes (coords2 coords3 : List (String × String))
    (sidesA sidesB : ℤ) (center : ℚ × ℚ) (r : ℚ) (radii : ℚ × ℚ)
    (angle : ℚ) (angles : Option (ℚ × ℚ)) (round_ random_ : ℚ)
    (transform : Option String) (ca : Bool) (style : Dict (Option String)) (st : Sis) :
    (coords2.length < 2 →
      (polyline coords2 transform ca style st).1 = none
      ∧ (polyline coords2 transform ca style st).2.simpleObjs = st.simpleObjs
      ∧ (polyline coords2 transform ca style st).2.errors
          = st.errors ++ ["A polyline must contain at least two points."])
    ∧ (coords3.length < 3 →
      (polygon coords3 transform ca style st).1 = none
      ∧ (polygon coords3 transform ca style st).2.simpleObjs = st.simpleObjs
      ∧ (polygon coords3 transform ca style st).2.errors
          = st.errors ++ ["A polygon must contain at least three points."])
    ∧ (sidesA < 3 →
      (regular_polygon sidesA center r angle round_ random_ transform ca style st).1 = none
      ∧ (regular_polygon sidesA center r angle round_ random_ transform ca style st).2.simpleObjs
          = st.simpleObjs
      ∧ (regular_polygon sidesA center r angle round_ random_ transform ca style st).2.errors
          = st.errors ++ ["A regular polygon must contain at least three points."])
    ∧ (sidesB < 3 →
      (star sidesB center radii angles round_ random_ transform ca style st).1 = none
      ∧ (star sidesB center radii angles round_ random_ transform ca style st).2.simpleObjs
          = st.simpleObjs
      ∧ (star sidesB center radii angles round_ random_ transform ca style st).2.errors
          = st.errors ++ ["A star must contain at least three points."]) := by
  refine ⟨fun h => ?_, fun h => ?_, fun h => ?_, fun h => ?_⟩ <;>
    simp [polyline, polygon, regular_polygon, star.eq_def, errormsg, h]

/-- Witness for C9: the four malformed calls at concrete inputs — an
empty polyline, a two-point polygon, a 2-sided regular polygon and a
2-sided star — all starting from the initial state. -/
theorem C9_invalid_shapes_witness :
    (([] : List (String × String)).length < 2
      ∧ ([("0", "0"), ("1", "1")] : List (String × String)).length < 3
      ∧ (2 : ℤ) < 3)
    ∧ (polyline [] none false [] (initSt 123456)).1 = none
    ∧ (polyline [] none false [] (initSt 123456)).2.simpleObjs = (initSt 123456).simpleObjs
    ∧ (polygon [("0", "0"), ("1", "1")] none false [] (initSt 123456)).1 = none
    ∧ (regular_polygon 2 (0, 0) 1 (-(1 : ℚ) / 2) 0 0 none false [] (initSt 123456)).1 = none
    ∧ (star 2 (0, 0) (1, 1 / 2) none 0 0 none false [] (initSt 123456)).1 = none
    ∧ (star 2 (0, 0) (1, 1 / 2) none 0 0 none false [] (initSt 123456)).2.simpleObjs
        = (initSt 123456).simpleObjs := by
  have h := C9_invalid_shapes [] [("0", "0"), ("1", "1")] 2 2 (0, 0) 1 (1, 1 / 2)
    (-(1 : ℚ) / 2) none 0 0 none false [] (initSt 123456)
  refine ⟨⟨by decide, by decide, by decide⟩, ?_, ?_, ?_, ?_, ?_, ?_⟩
  · exact (h.1 (by decide)).1
  · exact (h.1 (by decide)).2.1
  · exact (h.2.1 (by decide)).1
  · exact (h.2.2.1 (by decide)).1
  · exact (h.2.2.2 (by decide)).1
  · exact (h.2.2.2 (by decide)).2.1

/-- C4: for every SimpleObject x in the top-level registry, a
successful `group.add(x)` removes x from the registry, puts it exactly
once in that group's child list, and reports nothing; for an x that is
not a SimpleObject or not currently in the registry — including a
second `add(x)` on any group — the add reports an error and leaves the
registry and every group's child list unchanged. -/
theorem C4_group_membership (st : GroupSt) (g g2 : String) (x : String)
    (hInv : GroupInv st) :
    (x ∈ st.simpleObjs →
      x ∉ (group_add st g (PyVal.sobj x)).simpleObjs
      ∧ (childrenOf (group_add st g (PyVal.sobj x)) g).count x = 1
      ∧ (group_add st g (PyVal.sobj x)).errors = st.errors)
    ∧ (x ∉ st.simpleObjs →
      group_add st g (PyVal.sobj x)
        = { st with errors := st.errors ++
            ["Only objects not already in a group can be added to a group"] })
    ∧ (group_add st g PyVal.nonObj
        = { st with errors := st.errors ++
            ["Only Simple Inkscape Scripting objects can be added to a group"] })
    ∧ (x ∈ st.simpleObjs →
      group_add (group_add st g (PyVal.sobj x)) g2 (PyVal.sobj x)
        = { group_add st g (PyVal.sobj x) with
            errors := (group_add st g (PyVal.sobj x)).errors ++
              ["Only objects not already in a group can be added to a group"] }) := by
  have hsucc : ∀ hx : x ∈ st.simpleObjs,
      group_add st g (PyVal.sobj x)
        = { st with simpleObjs := st.simpleObjs.filter (fun o => !(o == x)),
                    children := appendChild st.children g x } := by
    intro hx
    show (if x ∈ st.simpleObjs then _ else _) = _
    rw [if_pos hx]
  refine ⟨fun hx => ?_, fun hx => ?_, ?_, fun hx => ?_⟩
  · rw [hsucc hx]
    refine ⟨?_, ?_, rfl⟩
    · intro hmem
      rw [List.mem_filter] at hmem
      simp at hmem
    · show ((List.lookup g (appendChild st.children g x)).getD []).count x = 1
      rw [lookup_appendChild_self, Option.getD_some, List.count_append]
      have h0 : (childrenOf st g).count x = 0 := childrenOf_count_zero hInv hx g
      unfold childrenOf at h0
      rw [h0, count_single_eq, if_pos rfl]
  · show (if x ∈ st.simpleObjs then _ else _) = _
    rw [if_neg hx]
  · rfl
  · have hout : x ∉ (group_add st g (PyVal.sobj x)).simpleObjs := by
      rw [hsucc hx]
      intro hmem
      rw [List.mem_filter] at hmem
      simp at hmem
    show (if x ∈ (group_add st g (PyVal.sobj x)).simpleObjs then _ else _) = _
    rw [if_neg hout]

/-- Witness for C4: a concrete two-object state (a group `g1` and an
object `x1`, both top-level) satisfying the ownership invariant; adding
`x1` to `g1` removes it from the registry and places it exactly once in
the group's children. -/
theorem C4_group_membership_witness :
    GroupInv ⟨["g1", "x1"], [("g1", [])], []⟩
    ∧ "x1" ∈ (["g1", "x1"] : List String)
    ∧ "x1" ∉ (group_add ⟨["g1", "x1"], [("g1", [])], []⟩ "g1" (PyVal.sobj "x1")).simpleObjs
    ∧ (childrenOf (group_add ⟨["g1", "x1"], [("g1", [])], []⟩ "g1"
        (PyVal.sobj "x1")) "g1").count "x1" = 1
    ∧ (group_add ⟨["g1", "x1"], [("g1", [])], []⟩ "g1" (PyVal.sobj "x1")).errors = [] := by
  have hInv : GroupInv ⟨["g1", "x1"], [("g1", [])], []⟩ := by
    constructor
    · show (["g1", "x1"] ++ ([[]] : List (List String)).flatten).Nodup
      decide
    · show (["g1"] : List String).Nodup
      decide
  have h := C4_group_membership ⟨["g1", "x1"], [("g1", [])], []⟩ "g1" "g1" "x1" hInv
  have hmem : "x1" ∈ (["g1", "x1"] : List String) := by decide
  exact ⟨hInv, hmem, (h.1 hmem).1, (h.1 hmem).2.1, (h.1 hmem).2.2⟩

/-- C8: every filter-primitive creation assigns a fresh result id
(distinct from the id issued at any other counter value, with the
counter bumped); each keyword argument is stored under `fpTargetKey`
(hyphenated, aliases `src1`/`src2` redirected to `in`/`in2`) with value
`fpStoredVal` (a FilterPrimitive handle under an alias resolves to its
result id; strings pass through verbatim; non-string sequences join
with spaces; other scalars stringify). -/
theorem C8_filter_primitive (r n : Nat) (kwArgs : List (String × FPVal))
    (hkeys : (kwArgs.map (fun kv => fpTargetKey kv.1)).Nodup)
    (hres : ∀ kv ∈ kwArgs, fpTargetKey kv.1 ≠ "result") :
    List.lookup "result" (simpleFilterPrimitiveNew r n kwArgs).1
        = some (FPVal.str (unique_id r n).1)
    ∧ (simpleFilterPrimitiveNew r n kwArgs).2.1 = (unique_id r n).1
    ∧ (simpleFilterPrimitiveNew r n kwArgs).2.2 = n + 1
    ∧ (∀ m, m ≠ n → (unique_id r m).1 ≠ (unique_id r n).1)
    ∧ ∀ kv ∈ kwArgs,
        List.lookup (fpTargetKey kv.1) (simpleFilterPrimitiveNew r n kwArgs).1
          = some (fpStoredVal kv.1 kv.2) := by
  have hargs : (simpleFilterPrimitiveNew r n kwArgs).1
      = simpleFilterPrimitiveArgs (unique_id r n).1 kwArgs := rfl
  refine ⟨?_, rfl, rfl, ?_, ?_⟩
  · rw [hargs]
    unfold simpleFilterPrimitiveArgs
    rw [lookup_foldl_dictSet (fun kv => fpTargetKey kv.1) (fun kv => fpStoredVal kv.1 kv.2)
      kwArgs _ "result" hkeys]
    have hnone : kwArgs.find? (fun kv => fpTargetKey kv.1 == "result") = none := by
      apply List.find?_eq_none.mpr
      intro kv hkv
      simp only [beq_iff_eq]
      exact hres kv hkv
    rw [hnone]
    simp [List.lookup_cons]
  · intro m hm he
    exact hm (unique_id_inj r he)
  · intro kv hkv
    rw [hargs]
    unfold simpleFilterPrimitiveArgs
    rw [lookup_foldl_dictSet (fun kv => fpTargetKey kv.1) (fun kv => fpStoredVal kv.1 kv.2)
      kwArgs _ (fpTargetKey kv.1) hkeys]
    rw [find?_eq_some_of_mem (fun kv => fpTargetKey kv.1) kwArgs kv hkeys hkv]

/-- Witness for C8: a concrete primitive at counter 2 whose `src1` is
the handle of the primitive created at counter 1 (the spec's chaining
scenario), plus a sequence, a string, and a scalar argument. -/
theorem C8_filter_primitive_witness :
    (([("src1", FPVal.primHandle ((unique_id 7 1).1) "<prim1>"),
       ("std_deviation", FPVal.seq ["3", "5"]),
       ("flood_color", FPVal.str "red"),
       ("k1", FPVal.scalar "2")]).map (fun kv => fpTargetKey kv.1)).Nodup
    ∧ List.lookup "in"
        (simpleFilterPrimitiveNew 7 2
          [("src1", FPVal.primHandle ((unique_id 7 1).1) "<prim1>"),
           ("std_deviation", FPVal.seq ["3", "5"]),
           ("flood_color", FPVal.str "red"),
           ("k1", FPVal.scalar "2")]).1
      = some (FPVal.str ((unique_id 7 1).1))
    ∧ List.lookup "result"
        (simpleFilterPrimitiveNew 7 2
          [("src1", FPVal.primHandle ((unique_id 7 1).1) "<prim1>"),
           ("std_deviation", FPVal.seq ["3", "5"]),
           ("flood_color", FPVal.str "red"),
           ("k1", FPVal.scalar "2")]).1
      = some (FPVal.str ((unique_id 7 2).1))
    ∧ (unique_id 7 1).1 ≠ (unique_id 7 2).1 := by
  have h := C8_filter_primitive 7 2
    [("src1", FPVal.primHandle ((unique_id 7 1).1) "<prim1>"),
     ("std_deviation", FPVal.seq ["3", "5"]),
     ("flood_color", FPVal.str "red"),
     ("k1", FPVal.scalar "2")]
    (by decide) (by decide)
  refine ⟨by decide, ?_, h.1, h.2.2.2.1 1 (by decide)⟩
  have hin := h.2.2.2.2 ("src1", FPVal.primHandle ((unique_id 7 1).1) "<prim1>")
    (by simp)
  have htgt : fpTargetKey "src1" = "in" := by decide
  have hval : fpStoredVal "src1" (FPVal.primHandle ((unique_id 7 1).1) "<prim1>")
      = FPVal.str ((unique_id 7 1).1) := rfl
  rw [htgt, hval] at hin
  exact hin

/-- C1 counterexample: at `ang1 = 0`, `ang2 = π` (sweep exactly π, in
units of π: `normSweep 0 1 = 1`), the synthesizer emits 3 elliptical-arc
segments, while `ceil(sweep / (π/2)) = 2` — refuting both the ceiling
formula and the claim's "sweep of exactly π yields exactly 2 arc
segments". -/
theorem C1_counterexample :
    countArcSegs (arcPath 0 1 "arc") = 3
    ∧ (⌈normSweep 0 1 / (1 / 2 : ℚ)⌉ : ℤ) = 2 := by
  have h1 : normSweep 0 1 = 1 := by norm_num [normSweep, pyMod]
  constructor
  · rw [countArcSegs_arcPath, nSegsArc_eq, h1]
    norm_num
    rfl
  · rw [h1]
    norm_num

/-- C1 (amended): for every call the normalized sweep lies in (0, 2π],
and the number of elliptical-arc segments emitted after the initial
move is `floor(sweep / (π/2)) + 1` — this equals `ceil(sweep / (π/2))`
except when the sweep is an exact multiple of π/2, where it is one
more; in particular a sweep of exactly π yields 3 arc segments. -/
theorem C1_arc_segment_count (ang1 ang2 : ℚ) (arc_type : String) :
    (0 < normSweep ang1 ang2 ∧ normSweep ang1 ang2 ≤ 2)
    ∧ countArcSegs (arcPath ang1 ang2 arc_type)
        = (⌊normSweep ang1 ang2 / (1 / 2)⌋ + 1).toNat :=
  ⟨⟨normSweep_pos ang1 ang2, normSweep_le_two ang1 ang2⟩,
    by rw [countArcSegs_arcPath, nSegsArc_eq]⟩

theorem arcAngles_append (p q : List PathSeg) :
    arcAngles (p ++ q) = arcAngles p ++ arcAngles q := by
  induction p with
  | nil => rfl
  | cons s t ih =>
    cases s <;> simp [arcAngles, ih]

theorem arcAngles_arcMap (rot : ℚ) (la sf : Bool) (f : Nat → ℚ) (l : List Nat) :
    arcAngles (l.map (fun s => PathSeg.arcSeg rot la sf (f s))) = l.map f := by
  induction l with
  | nil => rfl
  | cons a t ih => simp [arcAngles, ih]

theorem arcAngles_arcPath (ang1 ang2 : ℚ) (arc_type : String) :
    arcAngles (arcPath ang1 ang2 arc_type)
      = (List.range (nSegsArc ang1 ang2)).map
          (fun (s : Nat) => pyMod ang1 2
            + normSweep ang1 ang2 * ((s : ℚ) + 1) / (nSegsArc ang1 ang2 : ℚ)) := by
  unfold arcPath
  have hbase : arcAngles (PathSeg.move (pyMod ang1 2) ::
      (List.range (nSegsArc ang1 ang2)).map (fun (s : Nat) =>
        PathSeg.arcSeg 0 false true
          (pyMod ang1 2 + normSweep ang1 ang2 * ((s : ℚ) + 1) / (nSegsArc ang1 ang2 : ℚ)))) =
      (List.range (nSegsArc ang1 ang2)).map
        (fun (s : Nat) => pyMod ang1 2
          + normSweep ang1 ang2 * ((s : ℚ) + 1) / (nSegsArc ang1 ang2 : ℚ)) := by
    show arcAngles ((List.range (nSegsArc ang1 ang2)).map (fun (s : Nat) =>
      PathSeg.arcSeg 0 false true
        (pyMod ang1 2 + normSweep ang1 ang2 * ((s : ℚ) + 1) / (nSegsArc ang1 ang2 : ℚ)))) = _
    exact arcAngles_arcMap 0 false true _ _
  split_ifs with h1 h2 h3
  · exact hbase
  · rw [arcAngles_append, hbase]
    simp [arcAngles]
  · rw [arcAngles_append, hbase]
    simp [arcAngles]
  · exact hbase

/-- C6: when `ang1` and `ang2` normalize to the same angle (the
normalized difference is 0), the synthesizer uses a sweep of 2π: the
path has arc segments (it is not zero-length) and the last one lands at
the start angle plus 2π, which normalizes back to the start angle — the
same ellipse point, i.e. a full closed ellipse. -/
theorem C6_full_ellipse (ang1 ang2 : ℚ) (arc_type : String)
    (h : pyMod (pyMod ang2 2 - pyMod ang1 2) 2 = 0) :
    normSweep ang1 ang2 = 2
    ∧ 0 < countArcSegs (arcPath ang1 ang2 arc_type)
    ∧ (arcAngles (arcPath ang1 ang2 arc_type)).getLast? = some (pyMod ang1 2 + 2)
    ∧ pyMod (pyMod ang1 2 + 2) 2 = pyMod ang1 2 := by
  have hsweep : normSweep ang1 ang2 = 2 := by
    unfold normSweep
    simp [h]
  have hn : nSegsArc ang1 ang2 = 5 := by
    unfold nSegsArc pyInt
    rw [hsweep]
    norm_num
    rfl
  refine ⟨hsweep, ?_, ?_, ?_⟩
  · rw [countArcSegs_arcPath, hn]
    norm_num
  · have hlast : (arcAngles (arcPath ang1 ang2 arc_type)).getLast?
        = some (pyMod ang1 2 + 2 * (((4 : Nat) : ℚ) + 1) / ((5 : Nat) : ℚ)) := by
      rw [arcAngles_arcPath, hn, hsweep]
      rfl
    rw [hlast]
    congr 1
    push_cast
    ring_nf
  · have h0 : 0 ≤ pyMod ang1 2 := pyMod_nonneg ang1 (by norm_num)
    have h2 : pyMod ang1 2 < 2 := pyMod_lt ang1 (by norm_num)
    generalize hA : pyMod ang1 2 = A at h0 h2 ⊢
    show pyMod (A + 2) 2 = A
    unfold pyMod
    have hhalf : (A + 2) / 2 = A / 2 + 1 := by ring
    have hfl0 : ⌊A / 2⌋ = 0 := by
      apply Int.floor_eq_zero_iff.mpr
      constructor
      · positivity
      · show A / 2 < 1
        linarith
    rw [hhalf, Int.floor_add_one, hfl0]
    push_cast
    ring

/-- C2 (amended): for an unrecognized `arc_type` the error is reported
non-fatally — twice, once per validation — and the `sodipodi:arc-type`
attribute is left unset; but the synthesized path (a move followed by
the arc segments, with no closing segment) is still assigned to the
element, and the call returns a SimpleObject that is appended to the
top-level registry. -/
theorem C2_invalid_arc_type (ang1 ang2 : ℚ) (t : String) (transform : Option String)
    (ca : Bool) (style : Dict (Option String)) (st : Sis)
    (h : t ∉ (["arc", "slice", "chord"] : List String)) :
    ∃ obj : Obj,
      (arc ang1 ang2 t transform ca style st).1 = some obj
      ∧ (arc ang1 ang2 t transform ca style st).2.simpleObjs = st.simpleObjs ++ [obj]
      ∧ obj.payload = Payload.arcShape none false (arcPath ang1 ang2 t)
      ∧ arcPath ang1 ang2 t
          = PathSeg.move (pyMod ang1 2) ::
            (List.range (nSegsArc ang1 ang2)).map (fun (s : Nat) =>
              PathSeg.arcSeg 0 false true
                (pyMod ang1 2 + normSweep ang1 ang2 * ((s : ℚ) + 1) / (nSegsArc ang1 ang2 : ℚ)))
      ∧ (arc ang1 ang2 t transform ca style st).2.errors
          = st.errors ++ ["Invalid arc_type \"" ++ t ++ "\"",
                          "Invalid arc_type \"" ++ t ++ "\""] := by
  have ht1 : t ≠ "arc" := by intro e; exact h (by simp [e])
  have ht2 : t ≠ "slice" := by intro e; exact h (by simp [e])
  have ht3 : t ≠ "chord" := by intro e; exact h (by simp [e])
  have hor : ¬(t = "arc" ∨ t = "slice" ∨ t = "chord") := by
    rintro (e | e | e)
    · exact ht1 e
    · exact ht2 e
    · exact ht3 e
  have hpath : arcPath ang1 ang2 t
      = PathSeg.move (pyMod ang1 2) ::
        (List.range (nSegsArc ang1 ang2)).map (fun (s : Nat) =>
          PathSeg.arcSeg 0 false true
            (pyMod ang1 2 + normSweep ang1 ang2 * ((s : ℚ) + 1)
              / (nSegsArc ang1 ang2 : ℚ))) := by
    unfold arcPath
    rw [if_neg ht1, if_neg ht2, if_neg ht3]
  have harc : arc ang1 ang2 t transform ca style st
      = (some (simpleObjectNew
            (errormsg (errormsg st ("Invalid arc_type \"" ++ t ++ "\""))
              ("Invalid arc_type \"" ++ t ++ "\""))
            (Payload.arcShape none false (arcPath ang1 ang2 t))
            transform ca common_shape_style style).1,
         (simpleObjectNew
            (errormsg (errormsg st ("Invalid arc_type \"" ++ t ++ "\""))
              ("Invalid arc_type \"" ++ t ++ "\""))
            (Payload.arcShape none false (arcPath ang1 ang2 t))
            transform ca common_shape_style style).2) := by
    unfold arc
    simp only [if_neg h, if_neg hor, beq_false_of_ne ht1]
  refine ⟨_, by rw [harc], ?_, ?_, hpath, ?_⟩
  · rw [harc]
    simp [simpleObjectNew, errormsg]
  · rfl
  · rw [harc]
    simp [simpleObjectNew, errormsg]

/-- Witness for C2 (amended): the concrete call `arc(0, π, "bogus")`
from the initial state, with the hypothesis discharged by computation. -/
theorem C2_invalid_arc_type_witness :
    ("bogus" : String) ∉ (["arc", "slice", "chord"] : List String)
    ∧ ∃ obj : Obj,
      (arc 0 1 "bogus" none false [] (initSt 123456)).1 = some obj
      ∧ (arc 0 1 "bogus" none false [] (initSt 123456)).2.simpleObjs
          = (initSt 123456).simpleObjs ++ [obj]
      ∧ obj.payload = Payload.arcShape none false (arcPath 0 1 "bogus")
      ∧ arcPath 0 1 "bogus"
          = PathSeg.move (pyMod 0 2) ::
            (List.range (nSegsArc 0 1)).map (fun (s : Nat) =>
              PathSeg.arcSeg 0 false true
                (pyMod 0 2 + normSweep 0 1 * ((s : ℚ) + 1) / (nSegsArc 0 1 : ℚ)))
      ∧ (arc 0 1 "bogus" none false [] (initSt 123456)).2.errors
          = (initSt 123456).errors ++ ["Invalid arc_type \"bogus\"",
                                       "Invalid arc_type \"bogus\""] :=
  ⟨by decide, C2_invalid_arc_type 0 1 "bogus" none false [] (initSt 123456) (by decide)⟩

/-- C2 counterexample: `arc(0, π, arc_type="bogus")` from the initial
state refutes the claim as stated — the call does return a usable
object (which is registered), and a nonempty path (4 segments: one move
plus three arcs) is attached; the errors are reported non-fatally
(twice). -/
theorem C2_counterexample :
    (arc 0 1 "bogus" none false [] (initSt 123456)).1.isSome = true
    ∧ (arc 0 1 "bogus" none false [] (initSt 123456)).2.simpleObjs.length = 1
    ∧ (arcPath 0 1 "bogus").length = 4
    ∧ (arc 0 1 "bogus" none false [] (initSt 123456)).2.errors
        = ["Invalid arc_type \"bogus\"", "Invalid arc_type \"bogus\""] := by
  have hmem : ("bogus" : String) ∉ (["arc", "slice", "chord"] : List String) := by decide
  have hor : ¬(("bogus" : String) = "arc" ∨ ("bogus" : String) = "slice"
      ∨ ("bogus" : String) = "chord") := by decide
  have ht1 : ("bogus" : String) ≠ "arc" := by decide
  have ht2 : ("bogus" : String) ≠ "slice" := by decide
  have ht3 : ("bogus" : String) ≠ "chord" := by decide
  have hn : nSegsArc 0 1 = 3 := by
    have h1 : normSweep 0 1 = 1 := by norm_num [normSweep, pyMod]
    unfold nSegsArc pyInt
    rw [h1]
    norm_num
    rfl
  have hpath : (arcPath 0 1 "bogus").length = 4 := by
    unfold arcPath
    rw [if_neg ht1, if_neg ht2, if_neg ht3]
    simp [hn]
  have harc : arc 0 1 "bogus" none false [] (initSt 123456)
      = (some (simpleObjectNew
            (errormsg (errormsg (initSt 123456) "Invalid arc_type \"bogus\"")
              "Invalid arc_type \"bogus\"")
            (Payload.arcShape none false (arcPath 0 1 "bogus"))
            none false common_shape_style []).1,
         (simpleObjectNew
            (errormsg (errormsg (initSt 123456) "Invalid arc_type \"bogus\"")
              "Invalid arc_type \"bogus\"")
            (Payload.arcShape none false (arcPath 0 1 "bogus"))
            none false common_shape_style []).2) := by
    unfold arc
    simp only [if_neg hmem, if_neg hor, beq_false_of_ne ht1]
    rw [show ("Invalid arc_type \"" ++ "bogus" ++ "\"" : String)
      = "Invalid arc_type \"bogus\"" from by decide]
  refine ⟨by rw [harc]; rfl, ?_, hpath, ?_⟩
  · rw [harc]
    simp [simpleObjectNew, errormsg, initSt]
  · rw [harc]
    simp [simpleObjectNew, errormsg, initSt]

/-- Witness for C6: the concrete call with `ang1 = ang2 = 0` (the
spec's full-ellipse request), with the zero-sweep hypothesis discharged
by computation. -/
theorem C6_full_ellipse_witness :
    pyMod (pyMod 0 2 - pyMod 0 2) 2 = 0
    ∧ (normSweep 0 0 = 2
      ∧ 0 < countArcSegs (arcPath 0 0 "arc")
      ∧ (arcAngles (arcPath 0 0 "arc")).getLast? = some (pyMod 0 2 + 2)
      ∧ pyMod (pyMod 0 2 + 2) 2 = pyMod 0 2) :=
  ⟨by norm_num [pyMod], C6_full_ellipse 0 0 "arc" (by norm_num [pyMod])⟩
